import Mathlib

set_option maxRecDepth 8192

/-!
# Verification of the HealthSense disease-prediction core (`src/ai_models.py`)

Shallow embedding of the `DiseasePredictor` class: the synthetic-corpus
generator `_create_training_data`, the training entry point `init_model`,
and the serving operations `predict_disease`, `get_available_symptoms` and
`get_symptom_importance`.

Modelling conventions:

* Python dict queries `symptoms.get(key, False)` become association-list
  lookup with default `false` (`dictGet`).
* NumPy's PRNG is modelled by a stream `u : ℕ → ℚ` of uniform draws in
  `[0,1)`; `np.random.seed(42)` fixes the stream, so a run of the generator
  is a function of that stream.  `np.random.choice(items)` picks index
  `⌊v·n⌋` from a draw `v` (uniform over the items), and
  `np.random.choice([0,1], p=[p₀, 1-p₀])` returns `1` iff the draw is at
  least `p₀` (NumPy inverts the CDF of `p`), i.e. with probability `1-p₀`.
* `sklearn.ensemble.RandomForestClassifier` is opaque ensemble fitting; a
  fitted forest is a structure `RFModel` exposing exactly what the source
  consumes: `predict_proba` (per-class probabilities, each in `[0,1]`) and
  `feature_importances_`.  `model.predict` is, per sklearn's documented
  semantics, `classes_[argmax(predict_proba)]`, and since the forest is fit
  on label-encoded targets `0..k-1`, `classes_` is the identity, so
  `predict` is `npArgmax` of the distribution (first index attaining the
  maximum, as `np.argmax` returns the first occurrence).
* `sklearn.preprocessing.LabelEncoder.fit_transform` encodes labels by
  their index in the *sorted* list of distinct labels (`np.unique`);
  `pandas.Series.unique` returns distinct values in first-seen order.
* `np.argsort` on the (at most 15-element) probability vector is NumPy's
  introsort, which is plain insertion sort below 16 elements and hence
  stable ascending; it is modelled by a stable ascending insertion sort on
  indices (`npArgsort`).
-/

namespace HealthSense

/-- `symptoms.get(symptom, False)` on a Python dict, modelled as
association-list lookup with default `false`. -/
def dictGet (q : List (String × Bool)) (k : String) : Bool :=
  match q.find? (fun pr => decide (pr.1 = k)) with
  | some pr => pr.2
  | none => false

/-- Python `max` on a list of floats (probabilities); `0` on the empty list,
which the source never reaches. -/
def npMax : List ℚ → ℚ
  | [] => 0
  | [x] => x
  | x :: y :: ys => max x (npMax (y :: ys))

/-- `np.argmax`: index of the first occurrence of the maximum. -/
def npArgmax : List ℚ → ℕ
  | [] => 0
  | [_] => 0
  | x :: y :: ys => if x < npMax (y :: ys) then npArgmax (y :: ys) + 1 else 0

/-- Insert index `i` into an index list sorted ascending by the keys
`l.getD · 0`, placing `i` after any index with an equal key (stability of
insertion sort, as in NumPy's small-array introsort). -/
def insertIdxAsc (l : List ℚ) (i : ℕ) : List ℕ → List ℕ
  | [] => [i]
  | j :: js => if l.getD i 0 < l.getD j 0 then i :: j :: js else j :: insertIdxAsc l i js

/-- Stable ascending argsort of the first `n` indices of `l`. -/
def argsortAux (l : List ℚ) : ℕ → List ℕ
  | 0 => []
  | n + 1 => insertIdxAsc l n (argsortAux l n)

/-- `np.argsort(l)`: indices of `l` sorted ascending by value, ties in
original (ascending index) order. -/
def npArgsort (l : List ℚ) : List ℕ :=
  argsortAux l l.length

/-- `np.argsort(probabilities)[-3:][::-1]` from `predict_disease`: the last
three indices of the ascending argsort, reversed. -/
def topIndices (p : List ℚ) : List ℕ :=
  ((npArgsort p).reverse).take 3

/-- `pandas.Series.unique`: distinct values in first-seen order
(used for `self.diseases = y.unique().tolist()`). -/
def firstSeen (l : List String) : List String :=
  l.foldl (fun acc x => if x ∈ acc then acc else acc ++ [x]) []

/-- `np.unique` as used by `LabelEncoder.fit`: the distinct values sorted
ascending.  `LabelEncoder` encodes a label as its index in this list. -/
def npUnique (l : List String) : List String :=
  List.insertionSort (· ≤ ·) (firstSeen l)

/-- Index of the first occurrence of `s` (length of the list if absent);
`LabelEncoder.transform` of a label is `posOf label classes`. -/
def posOf (s : String) : List String → ℕ
  | [] => 0
  | t :: ts => if t = s then 0 else posOf s ts + 1

/-! ## Configuration tables (lines 49-141 of `ai_models.py`) -/

/-- One entry of `disease_patterns`: the three symptom tiers of a disease. -/
structure Pattern where
  high_symptoms : List String
  medium_symptoms : List String
  low_symptoms : List String

/-- The `symptoms` literal (lines 49-58). -/
def symptomsBase : List String :=
  ["fever", "cough", "fatigue", "body_ache", "headache", "sore_throat",
   "runny_nose", "shortness_of_breath", "chest_pain", "nausea",
   "vomiting", "diarrhea", "abdominal_pain", "loss_of_appetite",
   "weight_loss", "night_sweats", "joint_pain", "muscle_weakness",
   "dizziness", "confusion", "rash", "itching", "swelling",
   "back_pain", "neck_pain", "vision_problems", "hearing_loss",
   "difficulty_swallowing", "seizures", "numbness", "tingling",
   "frequent_urination", "blood_in_urine", "constipation", "bloating"]

/-- Lines 140-141: `facial_pain` is appended to `symptoms` when absent.
This is the finalized vocabulary, the key set of every generated row. -/
def symptomsVocab : List String :=
  if "facial_pain" ∈ symptomsBase then symptomsBase
  else symptomsBase ++ ["facial_pain"]

/-- The `disease_patterns` literal (lines 61-137), in source order. -/
def diseasePatterns : List (String × Pattern) :=
  [("Common Cold",
    ⟨["runny_nose", "sore_throat", "cough"], ["headache", "fatigue"], ["fever"]⟩),
   ("Influenza",
    ⟨["fever", "body_ache", "fatigue", "headache"], ["cough", "sore_throat"],
     ["runny_nose"]⟩),
   ("COVID-19",
    ⟨["fever", "cough", "fatigue", "shortness_of_breath"],
     ["headache", "body_ache", "sore_throat"],
     ["runny_nose", "nausea", "loss_of_appetite"]⟩),
   ("Pneumonia",
    ⟨["fever", "cough", "shortness_of_breath", "chest_pain"],
     ["fatigue", "body_ache"], ["headache"]⟩),
   ("Gastroenteritis",
    ⟨["nausea", "vomiting", "diarrhea", "abdominal_pain"], ["fever", "fatigue"],
     ["headache", "loss_of_appetite"]⟩),
   ("Migraine",
    ⟨["headache", "nausea"], ["fatigue", "dizziness", "vision_problems"],
     ["vomiting"]⟩),
   ("Diabetes Type 2",
    ⟨["frequent_urination", "fatigue", "weight_loss"],
     ["dizziness", "vision_problems"], ["numbness", "tingling"]⟩),
   ("Hypertension",
    ⟨["headache", "dizziness", "vision_problems"], ["chest_pain", "fatigue"],
     ["nausea"]⟩),
   ("Asthma",
    ⟨["shortness_of_breath", "cough", "chest_pain"], ["fatigue"], ["dizziness"]⟩),
   ("Urinary Tract Infection",
    ⟨["frequent_urination", "blood_in_urine", "abdominal_pain"],
     ["fever", "back_pain"], ["fatigue"]⟩),
   ("Arthritis",
    ⟨["joint_pain", "swelling", "muscle_weakness"], ["fatigue", "body_ache"],
     ["fever"]⟩),
   ("Allergic Reaction",
    ⟨["rash", "itching", "swelling"], ["shortness_of_breath", "nausea"],
     ["dizziness"]⟩),
   ("Bronchitis",
    ⟨["cough", "chest_pain", "fatigue"], ["sore_throat", "fever"],
     ["headache", "body_ache"]⟩),
   ("Strep Throat",
    ⟨["sore_throat", "fever", "difficulty_swallowing"], ["headache", "body_ache"],
     ["nausea"]⟩),
   ("Sinusitis",
    ⟨["headache", "runny_nose", "facial_pain"], ["cough", "fever"], ["fatigue"]⟩)]

/-- The concatenation `high_symptoms + medium_symptoms + low_symptoms`
tested by the noise loop (line 169). -/
def Tall (p : Pattern) : List String :=
  p.high_symptoms ++ p.medium_symptoms ++ p.low_symptoms

/-- `disease_patterns[disease]` (line 147); total with a default that the
source never reaches, since the key is always drawn from the table. -/
def lookupPattern (cfg : List (String × Pattern)) (d : String) : Pattern :=
  match cfg.find? (fun pr => decide (pr.1 = d)) with
  | some pr => pr.2
  | none => ⟨[], [], []⟩

/-! ## Corpus generator (`_create_training_data`, lines 44-175) -/

/-- `np.random.choice([0, 1], p=[pZero, 1 - pZero])` applied to one uniform
draw `v ∈ [0,1)`: returns `1` (symptom present) iff `pZero ≤ v`, i.e. with
probability `1 - pZero`. -/
def npChoiceBern (pZero : ℚ) (v : ℚ) : ℕ :=
  if v < pZero then 0 else 1

/-- `np.random.choice(items)` applied to one uniform draw `v ∈ [0,1)`:
uniform selection, index `⌊v·n⌋`. -/
def npChoiceList (items : List String) (v : ℚ) : String :=
  items.getD (Int.toNat ⌊v * (items.length : ℚ)⌋) ""

/-- Pointwise update of a symptom vector (`symptom_vector[symptom] = x`). -/
def updateFn (v : String → ℕ) (s : String) (x : ℕ) : String → ℕ :=
  fun t => if t = s then x else v t

/-- Body of the three tier loops (lines 153-165): assign a Bernoulli draw to
the symptom, but only if it is a key of the vector (`in symptom_vector`),
consuming one draw exactly in that case. -/
def tierStep (pZero : ℚ) (u : ℕ → ℚ) (acc : (String → ℕ) × ℕ) (s : String) :
    (String → ℕ) × ℕ :=
  if s ∈ symptomsVocab then
    (updateFn acc.1 s (npChoiceBern pZero (u acc.2)), acc.2 + 1)
  else acc

/-- One tier loop: fold `tierStep` over the tier's symptom list. -/
def tierLoop (pZero : ℚ) (u : ℕ → ℚ) (syms : List String)
    (vk : (String → ℕ) × ℕ) : (String → ℕ) × ℕ :=
  syms.foldl (tierStep pZero u) vk

/-- Body of the noise loop (lines 168-170): symptoms in no tier of the
chosen disease get a `p=[0.95, 0.05]` draw. -/
def noiseStep (tall : List String) (u : ℕ → ℚ) (acc : (String → ℕ) × ℕ)
    (s : String) : (String → ℕ) × ℕ :=
  if s ∈ tall then acc
  else (updateFn acc.1 s (npChoiceBern (95/100) (u acc.2)), acc.2 + 1)

/-- The noise loop: fold `noiseStep` over the whole vocabulary. -/
def noiseLoop (tall : List String) (u : ℕ → ℚ) (vk : (String → ℕ) × ℕ) :
    (String → ℕ) × ℕ :=
  symptomsVocab.foldl (noiseStep tall u) vk

/-- One generated training example: a disease label and a full symptom
vector (`0`/`1` per vocabulary symptom). -/
structure Row where
  disease : String
  value : String → ℕ

/-- The symptom-vector part of one row (lines 150-170): start from the
all-`0` vector, run the `p=[0.2,0.8]`, `p=[0.5,0.5]`, `p=[0.8,0.2]` tier
loops in source order, then the `p=[0.95,0.05]` noise loop, threading the
draw-stream position starting at `k + 1` (position `k` was the disease
draw). -/
def genRowChain (pt : Pattern) (u : ℕ → ℚ) (k : ℕ) : (String → ℕ) × ℕ :=
  noiseLoop (Tall pt) u
    (tierLoop (8/10) u pt.low_symptoms
      (tierLoop (5/10) u pt.medium_symptoms
        (tierLoop (2/10) u pt.high_symptoms (fun _ => 0, k + 1))))

/-- Loop body of lines 145-173, one row: draw a disease uniformly from the
table's keys, then fill the symptom vector through the tier and noise
loops.  Returns the row and the next unused position of the draw stream. -/
def genRow (cfg : List (String × Pattern)) (u : ℕ → ℚ) (k : ℕ) : Row × ℕ :=
  let disease := npChoiceList (cfg.map Prod.fst) (u k)
  let vk := genRowChain (lookupPattern cfg disease) u k
  (⟨disease, vk.1⟩, vk.2)

/-- `n` iterations of the row loop, threading the draw stream position. -/
def genRows (cfg : List (String × Pattern)) (u : ℕ → ℚ) (k : ℕ) :
    ℕ → List Row
  | 0 => []
  | n + 1 =>
    let rk := genRow cfg u k
    rk.1 :: genRows cfg u rk.2 n

/-- `_create_training_data`, generalized over the `disease_patterns` table:
2500 rows (line 145) from the seeded stream `u`. -/
def createTrainingDataGen (cfg : List (String × Pattern)) (u : ℕ → ℚ) :
    List Row :=
  genRows cfg u 0 2500

/-- `_create_training_data` proper: the hard-coded table.  `u` is the draw
stream of the NumPy generator right after `np.random.seed(42)`. -/
def createTrainingData (u : ℕ → ℚ) : List Row :=
  createTrainingDataGen diseasePatterns u

/-! ## Classifier state and operations (lines 8-243) -/

/-- A fitted `RandomForestClassifier`, abstracted to the interface the
source consumes.  The probability bounds are sklearn's guarantee:
`predict_proba` entries are averaged vote fractions. -/
structure RFModel where
  nClasses : ℕ
  proba : List ℕ → List ℚ
  importances : List ℚ
  nClasses_pos : 0 < nClasses
  proba_len : ∀ fv, (proba fv).length = nClasses
  proba_mem_bounds : ∀ fv x, x ∈ proba fv → 0 ≤ x ∧ x ≤ 1

/-- The fields of a `DiseasePredictor` instance (`__init__`, lines 11-16):
`model`, the fitted `label_encoder` classes, `symptom_columns`, `diseases`. -/
structure PredictorState where
  model : Option RFModel
  leClasses : List String
  symptom_columns : List String
  diseases : List String

/-- The state right after lines 12-15 of `__init__`, before `init_model`
runs: untrained model, unfitted encoder, empty columns. -/
def untrainedState : PredictorState :=
  ⟨none, [], [], []⟩

/-- `init_model` (lines 18-42), generalized over the pattern table and over
the forest-fitting function (hyperparameters `n_estimators=200`,
`max_depth=15`, `min_samples_split=4`, `min_samples_leaf=2`,
`random_state=42` are folded into `fit`).  `X` drops the `disease` column,
keeping the vocabulary order; `y` is encoded by the sorted-unique
`LabelEncoder`; `diseases` records the first-seen distinct labels. -/
def initModelGen (cfg : List (String × Pattern)) (u : ℕ → ℚ)
    (fit : List (List ℕ) → List ℕ → RFModel) : PredictorState :=
  let data := createTrainingDataGen cfg u
  let X := data.map (fun r => symptomsVocab.map r.value)
  let y := data.map Row.disease
  let leClasses := npUnique y
  let yEnc := y.map (fun lbl => posOf lbl leClasses)
  { model := some (fit X yEnc)
    leClasses := leClasses
    symptom_columns := symptomsVocab
    diseases := firstSeen y }

/-- `init_model` with the source's hard-coded pattern table. -/
def initModel (u : ℕ → ℚ) (fit : List (List ℕ) → List ℕ → RFModel) :
    PredictorState :=
  initModelGen diseasePatterns u fit

/-- `DiseasePredictor()` (lines 11-16): `__init__` initializes the fields
and unconditionally runs `init_model`, so the constructed state is the
trained one. -/
def mkPredictor (u : ℕ → ℚ) (fit : List (List ℕ) → List ℕ → RFModel) :
    PredictorState :=
  initModel u fit

/-- `get_disease_predictor` (lines 240-243): returns a (cached) fresh
`DiseasePredictor()`. -/
def getDiseasePredictor (u : ℕ → ℚ)
    (fit : List (List ℕ) → List ℕ → RFModel) : PredictorState :=
  mkPredictor u fit

/-- Result of `predict_disease`: either the error dict of line 188 or the
result dict of lines 215-220. -/
inductive PredictResult where
  | error (msg : String)
  | ok (primary : String) (confidence : ℚ) (top : List (String × ℚ)) (total : ℕ)
deriving DecidableEq

/-- Whether a `predict_disease` result is the non-error dict. -/
def PredictResult.isOk : PredictResult → Bool
  | .ok _ _ _ _ => true
  | .error _ => false

/-- Lines 191-193: the feature vector in `symptom_columns` order, `1` for a
symptom the query maps to true, else `0` (absent keys default to false). -/
def featureVector (cols : List String) (q : List (String × Bool)) : List ℕ :=
  cols.map (fun c => if dictGet q c then 1 else 0)

/-- `predict_disease` (lines 177-220).  `model.predict` is
`argmax(predict_proba)` (see header); `inverse_transform` is lookup in the
encoder's sorted class list; `confidence = max(probabilities)`;
the top-3 loop maps `np.argsort(p)[-3:][::-1]` through `inverse_transform`. -/
def predictDisease (st : PredictorState) (symptoms : List (String × Bool)) :
    PredictResult :=
  match st.model with
  | none => .error "Model not initialized"
  | some m =>
    let fv := featureVector st.symptom_columns symptoms
    let probabilities := m.proba fv
    let prediction := npArgmax probabilities
    let disease := st.leClasses.getD prediction ""
    let confidence := npMax probabilities
    let tops := (topIndices probabilities).map
      (fun idx => (st.leClasses.getD idx "", probabilities.getD idx 0))
    .ok disease confidence tops fv.sum

/-- `get_available_symptoms` (lines 222-224). -/
def getAvailableSymptoms (st : PredictorState) : List String :=
  st.symptom_columns

/-- `get_symptom_importance` (lines 226-238): empty dict when untrained;
otherwise, for each enumerated column whose query value is true, the
forest's global importance at that position. -/
def getSymptomImportance (st : PredictorState) (symptoms : List (String × Bool)) :
    List (String × ℚ) :=
  match st.model with
  | none => []
  | some m =>
    (List.range st.symptom_columns.length).filterMap (fun i =>
      let sym := st.symptom_columns.getD i ""
      if dictGet symptoms sym then some (sym, m.importances.getD i 0) else none)

/-! ## Generic list lemmas -/

theorem getD_mem_of_lt {α : Type} (l : List α) (n : ℕ) (d : α)
    (h : n < l.length) : l.getD n d ∈ l := by
  induction l generalizing n with
  | nil => simp at h
  | cons x xs ih =>
    cases n with
    | zero => simp
    | succ n =>
      simp only [List.getD_cons_succ]
      exact List.mem_cons_of_mem _ (ih n (by simpa using h))

theorem exists_getD_of_mem {α : Type} (l : List α) (a d : α) (h : a ∈ l) :
    ∃ n, n < l.length ∧ l.getD n d = a := by
  induction l with
  | nil => simp at h
  | cons x xs ih =>
    rcases List.mem_cons.mp h with rfl | h
    · exact ⟨0, by simp, by simp⟩
    · obtain ⟨n, hn, he⟩ := ih h
      exact ⟨n + 1, Nat.succ_lt_succ hn, he⟩

theorem getD_map_of_lt {α β : Type} (f : α → β) (l : List α) (n : ℕ)
    (d0 : β) (d : α) (h : n < l.length) :
    (l.map f).getD n d0 = f (l.getD n d) := by
  induction l generalizing n with
  | nil => simp at h
  | cons x xs ih =>
    cases n with
    | zero => simp
    | succ n => exact ih n (by simpa using h)

/-! ## Lemmas about `npMax` and `npArgmax` -/

theorem npMax_cons₂ (x y : ℚ) (ys : List ℚ) :
    npMax (x :: y :: ys) = max x (npMax (y :: ys)) := rfl

theorem npArgmax_cons₂ (x y : ℚ) (ys : List ℚ) :
    npArgmax (x :: y :: ys) =
      if x < npMax (y :: ys) then npArgmax (y :: ys) + 1 else 0 := rfl

theorem npMax_mem : ∀ (xs : List ℚ) (x : ℚ), npMax (x :: xs) ∈ x :: xs
  | [], x => by simp [npMax]
  | y :: ys, x => by
    rw [npMax_cons₂]
    rcases le_total x (npMax (y :: ys)) with h | h
    · rw [max_eq_right h]
      exact List.mem_cons_of_mem _ (npMax_mem ys y)
    · rw [max_eq_left h]
      exact List.mem_cons_self _ _

theorem le_npMax_of_mem : ∀ (xs : List ℚ) (x a : ℚ),
    a ∈ x :: xs → a ≤ npMax (x :: xs)
  | [], x, a, h => by
    rcases List.mem_cons.mp h with rfl | h
    · exact le_of_eq rfl
    · simp at h
  | y :: ys, x, a, h => by
    rw [npMax_cons₂]
    rcases List.mem_cons.mp h with rfl | h
    · exact le_max_left _ _
    · exact le_trans (le_npMax_of_mem ys y a h) (le_max_right _ _)

theorem npArgmax_lt_length : ∀ (xs : List ℚ) (x : ℚ),
    npArgmax (x :: xs) < (x :: xs).length
  | [], _ => by simp [npArgmax]
  | y :: ys, x => by
    rw [npArgmax_cons₂]
    split
    · simpa using Nat.succ_lt_succ (npArgmax_lt_length ys y)
    · simp

theorem getD_npArgmax : ∀ (xs : List ℚ) (x : ℚ),
    (x :: xs).getD (npArgmax (x :: xs)) 0 = npMax (x :: xs)
  | [], x => by simp [npArgmax, npMax]
  | y :: ys, x => by
    rw [npArgmax_cons₂, npMax_cons₂]
    split
    · next h =>
      rw [max_eq_right (le_of_lt h)]
      simpa using getD_npArgmax ys y
    · next h =>
      rw [max_eq_left (not_lt.mp h)]
      simp

theorem getD_lt_npMax_of_lt_argmax : ∀ (xs : List ℚ) (x : ℚ) (j : ℕ),
    j < npArgmax (x :: xs) → (x :: xs).getD j 0 < npMax (x :: xs)
  | [], _, j, h => by simp [npArgmax] at h
  | y :: ys, x, j, h => by
    rw [npArgmax_cons₂] at h
    rw [npMax_cons₂]
    by_cases hx : x < npMax (y :: ys)
    · rw [if_pos hx] at h
      rw [max_eq_right (le_of_lt hx)]
      cases j with
      | zero => simpa using hx
      | succ j =>
        simpa using getD_lt_npMax_of_lt_argmax ys y j (Nat.lt_of_succ_lt_succ h)
    · rw [if_neg hx] at h
      exact absurd h (Nat.not_lt_zero _)

theorem getD_le_npMax (xs : List ℚ) (x : ℚ) (j : ℕ)
    (h : j < (x :: xs).length) : (x :: xs).getD j 0 ≤ npMax (x :: xs) :=
  le_npMax_of_mem xs x _ (getD_mem_of_lt _ j 0 h)

/-! ## Lemmas about `npArgsort` and `topIndices` -/

/-- Strict ordering of index `i` before index `j` in the stable ascending
argsort: strictly smaller key, or equal key and smaller index. -/
def IdxLt (p : List ℚ) (i j : ℕ) : Prop :=
  p.getD i 0 < p.getD j 0 ∨ (p.getD i 0 = p.getD j 0 ∧ i < j)

theorem IdxLt.le {p : List ℚ} {i j : ℕ} (h : IdxLt p i j) :
    p.getD i 0 ≤ p.getD j 0 := by
  rcases h with h | ⟨h, _⟩
  · exact le_of_lt h
  · exact le_of_eq h

theorem mem_insertIdxAsc (p : List ℚ) (i : ℕ) : ∀ (acc : List ℕ) (x : ℕ),
    x ∈ insertIdxAsc p i acc ↔ x = i ∨ x ∈ acc
  | [], x => by simp [insertIdxAsc]
  | j :: js, x => by
    rw [show insertIdxAsc p i (j :: js) =
        if p.getD i 0 < p.getD j 0 then i :: j :: js
        else j :: insertIdxAsc p i js from rfl]
    split
    · simp [List.mem_cons, or_comm, or_assoc, or_left_comm]
    · rw [List.mem_cons, mem_insertIdxAsc p i js x, List.mem_cons]
      tauto

theorem length_insertIdxAsc (p : List ℚ) (i : ℕ) : ∀ (acc : List ℕ),
    (insertIdxAsc p i acc).length = acc.length + 1
  | [] => rfl
  | j :: js => by
    rw [show insertIdxAsc p i (j :: js) =
        if p.getD i 0 < p.getD j 0 then i :: j :: js
        else j :: insertIdxAsc p i js from rfl]
    split
    · simp
    · simp [length_insertIdxAsc p i js]

theorem pairwise_insertIdxAsc (p : List ℚ) (i : ℕ) : ∀ (acc : List ℕ),
    acc.Pairwise (IdxLt p) → (∀ x ∈ acc, x < i) →
      (insertIdxAsc p i acc).Pairwise (IdxLt p)
  | [], _, _ => by simp [insertIdxAsc]
  | j :: js, hpw, hlt => by
    rw [show insertIdxAsc p i (j :: js) =
        if p.getD i 0 < p.getD j 0 then i :: j :: js
        else j :: insertIdxAsc p i js from rfl]
    obtain ⟨hj, hjs⟩ := List.pairwise_cons.mp hpw
    split
    · next hij =>
      refine List.pairwise_cons.mpr ⟨?_, hpw⟩
      intro b hb
      rcases List.mem_cons.mp hb with rfl | hb
      · exact Or.inl hij
      · rcases hj b hb with h | ⟨he, _⟩
        · exact Or.inl (lt_trans hij h)
        · exact Or.inl (he ▸ hij)
    · next hij =>
      refine List.pairwise_cons.mpr
        ⟨?_, pairwise_insertIdxAsc p i js hjs
          (fun x hx => hlt x (List.mem_cons_of_mem _ hx))⟩
      intro b hb
      rcases (mem_insertIdxAsc p i js b).mp hb with rfl | hb
      · rcases lt_or_eq_of_le (not_lt.mp hij) with h | h
        · exact Or.inl h
        · exact Or.inr ⟨h, hlt j (List.mem_cons_self _ _)⟩
      · exact hj b hb

theorem argsortAux_spec (p : List ℚ) : ∀ n : ℕ,
    (argsortAux p n).Pairwise (IdxLt p) ∧
      (∀ x, x ∈ argsortAux p n ↔ x < n) ∧ (argsortAux p n).length = n
  | 0 => by simp [argsortAux]
  | n + 1 => by
    obtain ⟨hpw, hmem, hlen⟩ := argsortAux_spec p n
    rw [show argsortAux p (n + 1) = insertIdxAsc p n (argsortAux p n) from rfl]
    refine ⟨pairwise_insertIdxAsc p n _ hpw (fun x hx => (hmem x).mp hx), ?_, ?_⟩
    · intro x
      rw [mem_insertIdxAsc]
      constructor
      · rintro (rfl | hx)
        · exact Nat.lt_succ_self _
        · exact Nat.lt_succ_of_lt ((hmem x).mp hx)
      · intro hx
        rcases Nat.lt_succ_iff_lt_or_eq.mp hx with h | rfl
        · exact Or.inr ((hmem x).mpr h)
        · exact Or.inl rfl
    · rw [length_insertIdxAsc, hlen]

theorem npArgsort_pairwise (p : List ℚ) : (npArgsort p).Pairwise (IdxLt p) :=
  (argsortAux_spec p p.length).1

theorem mem_npArgsort (p : List ℚ) (x : ℕ) :
    x ∈ npArgsort p ↔ x < p.length :=
  (argsortAux_spec p p.length).2.1 x

theorem length_npArgsort (p : List ℚ) : (npArgsort p).length = p.length :=
  (argsortAux_spec p p.length).2.2

theorem length_topIndices (p : List ℚ) :
    (topIndices p).length = min 3 p.length := by
  rw [topIndices, List.length_take, List.length_reverse, length_npArgsort]

theorem mem_topIndices_lt (p : List ℚ) (i : ℕ) (h : i ∈ topIndices p) :
    i < p.length := by
  rw [topIndices] at h
  have h2 : i ∈ (npArgsort p).reverse := (List.take_sublist _ _).mem h
  rw [List.mem_reverse] at h2
  exact (mem_npArgsort p i).mp h2

theorem topIndices_pairwise (p : List ℚ) :
    (topIndices p).Pairwise (fun i j => IdxLt p j i) := by
  have h : ((npArgsort p).reverse).Pairwise (fun i j => IdxLt p j i) :=
    (List.pairwise_reverse).mpr (npArgsort_pairwise p)
  exact h.sublist (List.take_sublist _ _)

theorem topIndices_complete (p : List ℚ) (j : ℕ) (hj : j < p.length)
    (hnot : j ∉ topIndices p) :
    ∀ i ∈ topIndices p, p.getD j 0 ≤ p.getD i 0 := by
  intro i hi
  have hsplit : (npArgsort p).reverse =
      topIndices p ++ ((npArgsort p).reverse).drop 3 := by
    rw [topIndices, List.take_append_drop]
  have hjrev : j ∈ (npArgsort p).reverse := by
    rw [List.mem_reverse, mem_npArgsort]; exact hj
  rw [hsplit, List.mem_append] at hjrev
  have hjdrop : j ∈ ((npArgsort p).reverse).drop 3 := by
    rcases hjrev with h | h
    · exact absurd h hnot
    · exact h
  have hpw : ((npArgsort p).reverse).Pairwise (fun a b => IdxLt p b a) :=
    (List.pairwise_reverse).mpr (npArgsort_pairwise p)
  rw [hsplit, List.pairwise_append] at hpw
  exact (hpw.2.2 i hi j hjdrop).le

theorem topIndices_ne_nil (p : List ℚ) (hne : p ≠ []) : topIndices p ≠ [] := by
  intro h
  have := length_topIndices p
  rw [h] at this
  have hpos : 0 < p.length := List.length_pos.mpr hne
  simp only [List.length_nil] at this
  omega

theorem topIndices_head_eq_argmax (p : List ℚ) (hne : p ≠ [])
    (huniq : ∀ j, j < p.length → p.getD j 0 = npMax p → j = npArgmax p) :
    (topIndices p).head? = some (npArgmax p) := by
  obtain ⟨h, t, ht⟩ := List.exists_cons_of_ne_nil (topIndices_ne_nil p hne)
  have hmem : h ∈ topIndices p := by rw [ht]; exact List.mem_cons_self _ _
  have hlt : h < p.length := mem_topIndices_lt p h hmem
  -- every index is dominated by the head of the top list
  have hdom : ∀ j, j < p.length → p.getD j 0 ≤ p.getD h 0 := by
    intro j hj
    by_cases hjtop : j ∈ topIndices p
    · rw [ht] at hjtop
      rcases List.mem_cons.mp hjtop with rfl | hjt
      · exact le_refl _
      · have hpw := topIndices_pairwise p
        rw [ht, List.pairwise_cons] at hpw
        exact (hpw.1 j hjt).le
    · exact topIndices_complete p j hj hjtop h hmem
  -- hence the head attains the maximum
  obtain ⟨x, xs, rfl⟩ := List.exists_cons_of_ne_nil hne
  have hmax : (x :: xs).getD h 0 = npMax (x :: xs) := by
    refine le_antisymm (getD_le_npMax xs x h hlt) ?_
    obtain ⟨jm, hjm, hjme⟩ :=
      exists_getD_of_mem (x :: xs) (npMax (x :: xs)) 0 (npMax_mem xs x)
    calc npMax (x :: xs) = (x :: xs).getD jm 0 := hjme.symm
      _ ≤ (x :: xs).getD h 0 := hdom jm hjm
  have := huniq h hlt hmax
  rw [ht, this]
  rfl

/-! ## Lemmas about the feature vector and queries -/

theorem featureVector_sum_filter (cols : List String) (q : List (String × Bool)) :
    (featureVector cols q).sum = (cols.filter (fun c => dictGet q c)).length := by
  induction cols with
  | nil => rfl
  | cons c cs ih =>
    rw [show featureVector (c :: cs) q =
        (if dictGet q c then 1 else 0) :: featureVector cs q from rfl]
    cases h : dictGet q c <;> simp [List.filter_cons, h, ih, Nat.add_comm]

theorem featureVector_sum_ones (cols : List String) (q : List (String × Bool)) :
    (featureVector cols q).sum =
      ((featureVector cols q).filter (fun v => decide (v = 1))).length := by
  induction cols with
  | nil => rfl
  | cons c cs ih =>
    rw [show featureVector (c :: cs) q =
        (if dictGet q c then 1 else 0) :: featureVector cs q from rfl]
    cases h : dictGet q c <;> simp [List.filter_cons, ih, Nat.add_comm]

theorem filterMap_congr_mem {α β : Type} (l : List α) (f g : α → Option β)
    (h : ∀ a ∈ l, f a = g a) : l.filterMap f = l.filterMap g := by
  induction l with
  | nil => rfl
  | cons x xs ih =>
    rw [List.filterMap_cons, List.filterMap_cons, h x (List.mem_cons_self _ _),
      ih (fun a ha => h a (List.mem_cons_of_mem _ ha))]

theorem featureVector_congr (cols : List String) (q1 q2 : List (String × Bool))
    (h : ∀ c ∈ cols, dictGet q1 c = dictGet q2 c) :
    featureVector cols q1 = featureVector cols q2 := by
  induction cols with
  | nil => rfl
  | cons c cs ih =>
    rw [show featureVector (c :: cs) q1 =
        (if dictGet q1 c then 1 else 0) :: featureVector cs q1 from rfl,
      show featureVector (c :: cs) q2 =
        (if dictGet q2 c then 1 else 0) :: featureVector cs q2 from rfl,
      h c (List.mem_cons_self _ _),
      ih (fun d hd => h d (List.mem_cons_of_mem _ hd))]

/-! ## Abbreviations naming the prediction pipeline of `predict_disease` -/

/-- The per-class distribution `model.predict_proba([feature_vector])[0]`
that a query produces on a trained state. -/
def queryProbs (st : PredictorState) (m : RFModel)
    (q : List (String × Bool)) : List ℚ :=
  m.proba (featureVector st.symptom_columns q)

/-- The `top_predictions` list built from a distribution `p` (lines
203-213): the `topIndices` mapped through `inverse_transform`, paired with
their probabilities. -/
def topList (st : PredictorState) (p : List ℚ) : List (String × ℚ) :=
  (topIndices p).map (fun idx => (st.leClasses.getD idx "", p.getD idx 0))

theorem predictDisease_some (st : PredictorState) (m : RFModel)
    (q : List (String × Bool)) (hm : st.model = some m) :
    predictDisease st q = PredictResult.ok
      (st.leClasses.getD (npArgmax (queryProbs st m q)) "")
      (npMax (queryProbs st m q))
      (topList st (queryProbs st m q))
      (featureVector st.symptom_columns q).sum := by
  rw [predictDisease, hm]
  exact rfl

theorem queryProbs_ne_nil (st : PredictorState) (m : RFModel)
    (q : List (String × Bool)) : queryProbs st m q ≠ [] := by
  have hl : (queryProbs st m q).length = m.nClasses := m.proba_len _
  intro h0
  rw [h0] at hl
  exact absurd (hl ▸ m.nClasses_pos) (lt_irrefl 0)

/-! ## Concrete witness instances -/

/-- A trivial fitted forest standing in for an arbitrary real fit result. -/
def fitStub : List (List ℕ) → List ℕ → RFModel := fun _ _ =>
  { nClasses := 1
    proba := fun _ => [1]
    importances := []
    nClasses_pos := Nat.one_pos
    proba_len := fun _ => rfl
    proba_mem_bounds := by
      intro fv x hx
      rw [List.mem_singleton] at hx
      subst hx
      exact ⟨zero_le_one, le_refl 1⟩ }

/-- A four-class fitted forest with a constant distribution that has a
unique maximum, for exercising the prediction post-processing. -/
def wModel : RFModel :=
  { nClasses := 4
    proba := fun _ => [0, 1, 0, 0]
    importances := [0, 1, 0, 0]
    nClasses_pos := by norm_num
    proba_len := fun _ => rfl
    proba_mem_bounds := by
      intro fv x hx
      have h : x = 0 ∨ x = 1 ∨ x = 0 ∨ x = 0 := by
        simpa using hx
      rcases h with rfl | rfl | rfl | rfl <;> norm_num }

/-- A trained state over `wModel` with two symptom columns. -/
def wState : PredictorState :=
  { model := some wModel
    leClasses := ["A", "B", "C", "D"]
    symptom_columns := ["fever", "cough"]
    diseases := ["A", "B", "C", "D"] }

/-- A four-class fitted forest whose constant distribution ties classes 0
and 1 for the maximum and classes 2 and 3 for third place. -/
def cexModel : RFModel :=
  { nClasses := 4
    proba := fun _ => [1, 1, 0, 0]
    importances := [0, 1, 0, 0]
    nClasses_pos := by norm_num
    proba_len := fun _ => rfl
    proba_mem_bounds := by
      intro fv x hx
      have h : x = 1 ∨ x = 1 ∨ x = 0 ∨ x = 0 := by
        simpa using hx
      rcases h with rfl | rfl | rfl | rfl <;> norm_num }

/-- A trained state over `cexModel`. -/
def cexState : PredictorState :=
  { model := some cexModel
    leClasses := ["A", "B", "C", "D"]
    symptom_columns := ["fever", "cough"]
    diseases := ["A", "B", "C", "D"] }

/-! ## C1: argmax primary prediction, confidence, probability bounds -/

/-- C1: on a trained model, `predict_disease` returns the argmax class of
the per-class distribution as primary prediction (any strictly earlier
class index has strictly smaller probability, so ties break to the lowest
index), a confidence equal to the winning class's own probability, which
equals the maximum single-class probability of the full distribution;
the confidence and every top-3 probability lie in `[0,1]`, and
`total_symptoms` is the number of true-valued entries of the constructed
feature vector. -/
theorem predict_disease_spec (st : PredictorState) (m : RFModel)
    (q : List (String × Bool)) (hm : st.model = some m)
    (hlen : st.leClasses.length = m.nClasses) :
    predictDisease st q = PredictResult.ok
        (st.leClasses.getD (npArgmax (queryProbs st m q)) "")
        (npMax (queryProbs st m q))
        (topList st (queryProbs st m q))
        (featureVector st.symptom_columns q).sum ∧
    npArgmax (queryProbs st m q) < st.leClasses.length ∧
    (queryProbs st m q).getD (npArgmax (queryProbs st m q)) 0 =
      npMax (queryProbs st m q) ∧
    (∀ j, j < npArgmax (queryProbs st m q) →
      (queryProbs st m q).getD j 0 < npMax (queryProbs st m q)) ∧
    (∀ j, j < (queryProbs st m q).length →
      (queryProbs st m q).getD j 0 ≤ npMax (queryProbs st m q)) ∧
    (0 ≤ npMax (queryProbs st m q) ∧ npMax (queryProbs st m q) ≤ 1) ∧
    (∀ pr ∈ topList st (queryProbs st m q), 0 ≤ pr.2 ∧ pr.2 ≤ 1) ∧
    (featureVector st.symptom_columns q).sum =
      (st.symptom_columns.filter (fun c => dictGet q c)).length := by
  obtain ⟨x, xs, hxs⟩ := List.exists_cons_of_ne_nil (queryProbs_ne_nil st m q)
  have hbounds : ∀ y ∈ queryProbs st m q, 0 ≤ y ∧ y ≤ 1 := fun y hy =>
    m.proba_mem_bounds _ y hy
  refine ⟨predictDisease_some st m q hm, ?_, ?_, ?_, ?_, ?_, ?_, ?_⟩
  · have h1 : npArgmax (queryProbs st m q) < (queryProbs st m q).length := by
      rw [hxs]; exact npArgmax_lt_length xs x
    rw [hlen, ← m.proba_len (featureVector st.symptom_columns q)]
    exact h1
  · rw [hxs]; exact getD_npArgmax xs x
  · intro j hj
    rw [hxs] at hj ⊢
    exact getD_lt_npMax_of_lt_argmax xs x j hj
  · intro j hj
    rw [hxs] at hj ⊢
    exact getD_le_npMax xs x j hj
  · refine hbounds _ ?_
    rw [hxs]; exact npMax_mem xs x
  · intro pr hpr
    rw [topList, List.mem_map] at hpr
    obtain ⟨i, hi, rfl⟩ := hpr
    exact hbounds _
      (getD_mem_of_lt _ i 0 (mem_topIndices_lt (queryProbs st m q) i hi))
  · exact featureVector_sum_filter st.symptom_columns q

/-- Witness for C1 at a concrete trained state and query. -/
theorem predict_disease_spec_witness :
    wState.model = some wModel ∧ wState.leClasses.length = wModel.nClasses ∧
    predictDisease wState [("fever", true)] =
      PredictResult.ok "B" 1 [("B", 1), ("D", 0), ("C", 0)] 1 := by
  refine ⟨rfl, rfl, ?_⟩
  have h := (predict_disease_spec wState wModel [("fever", true)] rfl rfl).1
  rw [h]
  decide

/-! ## C2: the top-3 list -/

/-- C2 counterexample: on a trained state whose distribution ties classes
0 and 1 for the maximum (and 2, 3 for third place), the primary prediction
is class 0 (`"A"`, `np.argmax` takes the first maximum) but the first
`top_predictions` entry is class 1 (`"B"`): `np.argsort(p)[-3:][::-1]`
breaks ties toward the HIGHEST class index, so the first top entry differs
from the primary prediction and the claimed lowest-index tie-break fails
(it would yield `A, B, C`, the code yields `B, A, D`). -/
theorem top_predictions_tie_counterexample :
    predictDisease cexState [] =
      PredictResult.ok "A" 1 [("B", 1), ("A", 1), ("D", 0)] 0 ∧
    ("B" : String) ≠ "A" := by
  exact ⟨by decide, by decide⟩

/-- C2 (amended): the `top_predictions` list is `min 3 k` entries, sorted
strictly descending with ties broken toward the HIGHEST class index
(`IdxLt _ j i` along the list), it consists of top-probability classes
(any class outside it has probability at most every listed one), and its
first entry equals the primary prediction (with the winning probability)
whenever the maximum of the distribution is attained at a unique class
index; with a tie for the maximum the first entry can differ from the
primary prediction. -/
theorem top_predictions_order_spec (st : PredictorState) (m : RFModel)
    (q : List (String × Bool)) (hm : st.model = some m) :
    predictDisease st q = PredictResult.ok
        (st.leClasses.getD (npArgmax (queryProbs st m q)) "")
        (npMax (queryProbs st m q))
        (topList st (queryProbs st m q))
        (featureVector st.symptom_columns q).sum ∧
    (topList st (queryProbs st m q)).length = min 3 (queryProbs st m q).length ∧
    (topIndices (queryProbs st m q)).Pairwise
      (fun i j => IdxLt (queryProbs st m q) j i) ∧
    (topList st (queryProbs st m q)).Pairwise (fun a b => b.2 ≤ a.2) ∧
    (∀ j, j < (queryProbs st m q).length →
      j ∉ topIndices (queryProbs st m q) →
      ∀ i ∈ topIndices (queryProbs st m q),
        (queryProbs st m q).getD j 0 ≤ (queryProbs st m q).getD i 0) ∧
    ((∀ j, j < (queryProbs st m q).length →
        (queryProbs st m q).getD j 0 = npMax (queryProbs st m q) →
        j = npArgmax (queryProbs st m q)) →
      (topList st (queryProbs st m q)).head? =
        some (st.leClasses.getD (npArgmax (queryProbs st m q)) "",
          npMax (queryProbs st m q))) := by
  refine ⟨predictDisease_some st m q hm, ?_, topIndices_pairwise _, ?_, ?_, ?_⟩
  · rw [topList, List.length_map, length_topIndices]
  · rw [topList, List.pairwise_map]
    exact (topIndices_pairwise _).imp (fun h => h.le)
  · exact fun j hj hnot => topIndices_complete _ j hj hnot
  · intro huniq
    have hhead := topIndices_head_eq_argmax (queryProbs st m q)
      (queryProbs_ne_nil st m q) huniq
    obtain ⟨x, xs, hxs⟩ :=
      List.exists_cons_of_ne_nil (queryProbs_ne_nil st m q)
    have hgd : (queryProbs st m q).getD (npArgmax (queryProbs st m q)) 0 =
        npMax (queryProbs st m q) := by
      rw [hxs]; exact getD_npArgmax xs x
    obtain ⟨i0, t, hti⟩ :=
      List.exists_cons_of_ne_nil (topIndices_ne_nil _ (queryProbs_ne_nil st m q))
    have hi0 : i0 = npArgmax (queryProbs st m q) := by
      rw [hti] at hhead
      exact Option.some.inj hhead
    rw [topList, hti, List.map_cons, hi0, List.head?_cons, hgd]

/-- Witness for C2 at a concrete trained state whose distribution has a
unique maximum: the first top entry is the primary prediction. -/
theorem top_predictions_order_spec_witness :
    wState.model = some wModel ∧
    (topList wState (queryProbs wState wModel [])).head? = some ("B", 1) := by
  refine ⟨rfl, ?_⟩
  have h := (top_predictions_order_spec wState wModel [] rfl).2.2.2.2.2
  have huniq : ∀ j, j < (queryProbs wState wModel []).length →
      (queryProbs wState wModel []).getD j 0 =
        npMax (queryProbs wState wModel []) →
      j = npArgmax (queryProbs wState wModel []) := by decide
  rw [h huniq]
  decide

/-! ## C3: untrained-model guard -/

/-- C3: with `model = None`, `predict_disease` returns the
`"Model not initialized"` error dict and never an ok result, and
`get_symptom_importance` returns the empty mapping; no default disease
prediction is produced. -/
theorem untrained_guard_spec (st : PredictorState) (q : List (String × Bool))
    (hm : st.model = none) :
    predictDisease st q = PredictResult.error "Model not initialized" ∧
    getSymptomImportance st q = [] ∧
    ∀ d c t n, predictDisease st q ≠ PredictResult.ok d c t n := by
  refine ⟨?_, ?_, ?_⟩
  · rw [predictDisease, hm]
  · rw [getSymptomImportance, hm]
  · intro d c t n h
    rw [predictDisease, hm] at h
    exact PredictResult.noConfusion h

/-- Witness for C3 at the state `__init__` builds before `init_model`. -/
theorem untrained_guard_spec_witness :
    untrainedState.model = none ∧
    predictDisease untrainedState [("fever", true)] =
      PredictResult.error "Model not initialized" ∧
    getSymptomImportance untrainedState [("fever", true)] = [] :=
  ⟨rfl, (untrained_guard_spec untrainedState [("fever", true)] rfl).1,
    (untrained_guard_spec untrainedState [("fever", true)] rfl).2.1⟩

/-! ## C5: unknown symptom keys are ignored -/

/-- C5: `predict_disease` reads the query only at the trained vocabulary
(`symptoms.get(symptom, False)` per column), so two queries agreeing on
every vocabulary symptom — in particular a query with arbitrary unknown
keys and the query with those keys removed — produce identical results,
with no error; the same holds for `get_symptom_importance`. -/
theorem unknown_symptoms_ignored (st : PredictorState)
    (q1 q2 : List (String × Bool))
    (h : ∀ c ∈ st.symptom_columns, dictGet q1 c = dictGet q2 c) :
    predictDisease st q1 = predictDisease st q2 ∧
    getSymptomImportance st q1 = getSymptomImportance st q2 := by
  have hfv := featureVector_congr st.symptom_columns q1 q2 h
  constructor
  · cases hm : st.model with
    | none => rw [predictDisease, hm, predictDisease, hm]
    | some m =>
      rw [predictDisease_some st m q1 hm, predictDisease_some st m q2 hm,
        queryProbs, queryProbs, hfv]
  · cases hm : st.model with
    | none => rw [getSymptomImportance, hm, getSymptomImportance, hm]
    | some m =>
      simp only [getSymptomImportance, hm]
      refine filterMap_congr_mem _ _ _ ?_
      intro i hi
      have hsym := h (st.symptom_columns.getD i "")
        (getD_mem_of_lt _ i "" (List.mem_range.mp hi))
      simp only [hsym]

/-- Witness for C5: `predict({"nonexistent_symptom": True})` equals
`predict({})` on a trained state whose vocabulary lacks that key. -/
theorem unknown_symptoms_ignored_witness :
    (∀ c ∈ wState.symptom_columns,
      dictGet [("nonexistent_symptom", true)] c = dictGet [] c) ∧
    predictDisease wState [("nonexistent_symptom", true)] =
      predictDisease wState [] := by
  have h : ∀ c ∈ wState.symptom_columns,
      dictGet [("nonexistent_symptom", true)] c = dictGet [] c := by decide
  exact ⟨h, (unknown_symptoms_ignored wState _ _ h).1⟩

/-! ## C8: vocabulary stability -/

/-- C8: `get_available_symptoms` returns exactly the stored
`symptom_columns` (the same ordered list on every call of the pure
accessor); position `i` of the feature vector built by `predict_disease`
is the query's value at the `i`-th available symptom, so the returned
order is the internal feature order; and every key that
`get_symptom_importance` returns is a member of that vocabulary. -/
theorem vocabulary_stability_spec (st : PredictorState) :
    getAvailableSymptoms st = st.symptom_columns ∧
    (∀ q i, i < (getAvailableSymptoms st).length →
      (featureVector st.symptom_columns q).getD i 0 =
        if dictGet q ((getAvailableSymptoms st).getD i "") then 1 else 0) ∧
    (∀ q pr, pr ∈ getSymptomImportance st q →
      pr.1 ∈ getAvailableSymptoms st) := by
  refine ⟨rfl, ?_, ?_⟩
  · intro q i hi
    exact getD_map_of_lt _ st.symptom_columns i 0 "" hi
  · intro q pr hpr
    cases hm : st.model with
    | none =>
      rw [getSymptomImportance, hm] at hpr
      simp at hpr
    | some m =>
      rw [getSymptomImportance, hm, List.mem_filterMap] at hpr
      obtain ⟨i, hi, hfi⟩ := hpr
      by_cases hd : dictGet q (st.symptom_columns.getD i "")
      · rw [if_pos hd] at hfi
        have := Option.some.inj hfi
        rw [← this]
        exact getD_mem_of_lt _ i "" (List.mem_range.mp hi)
      · rw [if_neg hd] at hfi
        exact Option.noConfusion hfi

/-! ## C9: determinism with a fixed seed -/

/-- C9: corpus generation and the trained model are functions of the
seeded draw stream and of the (hyperparameter-and-seed determined) fit
alone: two runs over pointwise-equal streams produce identical corpora,
identical trained states, and identical predictions for the same query.
(`np.random.seed(42)` fixes the stream, `random_state=42` fixes `fit`.) -/
theorem determinism_spec (u u' : ℕ → ℚ)
    (fit fit' : List (List ℕ) → List ℕ → RFModel) (q : List (String × Bool))
    (hstream : ∀ n, u n = u' n) (hfit : ∀ X y, fit X y = fit' X y) :
    createTrainingData u = createTrainingData u' ∧
    initModel u fit = initModel u' fit' ∧
    predictDisease (initModel u fit) q = predictDisease (initModel u' fit') q := by
  have hu : u = u' := funext hstream
  have hf : fit = fit' := funext fun X => funext fun y => hfit X y
  subst hu
  subst hf
  exact ⟨rfl, rfl, rfl⟩

/-- Witness for C9 at a concrete stream and fit. -/
theorem determinism_spec_witness :
    (∀ n : ℕ, (fun _ : ℕ => (0 : ℚ)) n = (fun _ : ℕ => (0 : ℚ)) n) ∧
    predictDisease (initModel (fun _ => 0) fitStub) [] =
      predictDisease (initModel (fun _ => 0) fitStub) [] :=
  ⟨fun _ => rfl,
    (determinism_spec (fun _ => 0) (fun _ => 0) fitStub fitStub []
      (fun _ => rfl) (fun _ _ => rfl)).2.2⟩

/-! ## C10: the constructor always trains -/

/-- C10: `__init__` unconditionally runs `init_model`, so every instance
obtained from the constructor (or from `get_disease_predictor`) has
`model ≠ None` and `predict_disease` on it always takes the ok branch —
the untrained-error branches are unreachable on constructed instances. -/
theorem constructor_trains_spec (u : ℕ → ℚ)
    (fit : List (List ℕ) → List ℕ → RFModel) (q : List (String × Bool)) :
    (mkPredictor u fit).model.isSome = true ∧
    (getDiseasePredictor u fit).model.isSome = true ∧
    (predictDisease (mkPredictor u fit) q).isOk = true := by
  refine ⟨rfl, rfl, ?_⟩
  obtain ⟨m, hm⟩ :=
    Option.isSome_iff_exists.mp (rfl : (mkPredictor u fit).model.isSome = true)
  rw [predictDisease_some (mkPredictor u fit) m q hm]
  rfl

/-! ## Lemmas about the corpus generator loops -/

theorem posOf_cons (s t : String) (ts : List String) :
    posOf s (t :: ts) = if t = s then 0 else posOf s ts + 1 := rfl

/-- The complement probability assigned by the tier loops to a symptom:
probability of drawing `0`.  The probability of `true` is `1 - tierPZero`:
`0.8` for the high tier, `0.5` medium, `0.2` low, `0.05` noise. -/
def tierPZero (p : Pattern) (s : String) : ℚ :=
  if s ∈ p.high_symptoms then 2/10
  else if s ∈ p.medium_symptoms then 5/10
  else if s ∈ p.low_symptoms then 8/10
  else 95/100

/-- The vocabulary symptoms in no tier of `p`, in vocabulary order: the
symptoms the noise loop draws. -/
def notTallVocab (p : Pattern) : List String :=
  symptomsVocab.filter (fun s => decide (s ∉ Tall p))

/-- The position (relative to the first post-disease draw) of the stream
draw consumed for symptom `s` in a row for a disease with pattern `p`,
when the tiers are disjoint, duplicate-free and inside the vocabulary. -/
def tierDrawPos (p : Pattern) (s : String) : ℕ :=
  if s ∈ p.high_symptoms then posOf s p.high_symptoms
  else if s ∈ p.medium_symptoms then
    p.high_symptoms.length + posOf s p.medium_symptoms
  else if s ∈ p.low_symptoms then
    p.high_symptoms.length + p.medium_symptoms.length + posOf s p.low_symptoms
  else
    p.high_symptoms.length + p.medium_symptoms.length + p.low_symptoms.length +
      posOf s (notTallVocab p)

/-- Number of symptom draws one row consumes for pattern `p` (excluding
the disease draw), when the tiers are inside the vocabulary. -/
def rowDraws (p : Pattern) : ℕ :=
  p.high_symptoms.length + p.medium_symptoms.length + p.low_symptoms.length +
    (notTallVocab p).length

/-- Well-formedness of one disease pattern relative to the vocabulary:
duplicate-free tiers, all tier symptoms in the vocabulary, and pairwise
disjoint tiers. -/
def PatGood (p : Pattern) : Prop :=
  p.high_symptoms.Nodup ∧ p.medium_symptoms.Nodup ∧ p.low_symptoms.Nodup ∧
  (∀ s ∈ p.high_symptoms, s ∈ symptomsVocab) ∧
  (∀ s ∈ p.medium_symptoms, s ∈ symptomsVocab) ∧
  (∀ s ∈ p.low_symptoms, s ∈ symptomsVocab) ∧
  (∀ s ∈ p.high_symptoms, s ∉ p.medium_symptoms ∧ s ∉ p.low_symptoms) ∧
  (∀ s ∈ p.medium_symptoms, s ∉ p.low_symptoms)

theorem vocabNodup : symptomsVocab.Nodup := by decide

instance (p : Pattern) : Decidable (PatGood p) := by
  unfold PatGood
  infer_instance

theorem tierLoop_spec (pZero : ℚ) (u : ℕ → ℚ) : ∀ (syms : List String),
    (∀ s ∈ syms, s ∈ symptomsVocab) → syms.Nodup →
    ∀ (v : String → ℕ) (k : ℕ),
    (tierLoop pZero u syms (v, k)).2 = k + syms.length ∧
    ∀ t, (tierLoop pZero u syms (v, k)).1 t =
      if t ∈ syms then npChoiceBern pZero (u (k + posOf t syms)) else v t
  | [], _, _, v, k => by
    refine ⟨rfl, fun t => ?_⟩
    rw [if_neg (List.not_mem_nil t)]
    rfl
  | s :: rest, hsub, hnd, v, k => by
    have hs : s ∈ symptomsVocab := hsub s (List.mem_cons_self _ _)
    have hstep : tierLoop pZero u (s :: rest) (v, k) =
        tierLoop pZero u rest
          (updateFn v s (npChoiceBern pZero (u k)), k + 1) := by
      rw [tierLoop, List.foldl_cons]
      rw [show tierStep pZero u (v, k) s =
        (updateFn v s (npChoiceBern pZero (u k)), k + 1) from by
          rw [tierStep, if_pos hs]]
      rfl
    obtain ⟨hns, hndr⟩ := List.nodup_cons.mp hnd
    obtain ⟨ihc, ihv⟩ := tierLoop_spec pZero u rest
      (fun x hx => hsub x (List.mem_cons_of_mem _ hx)) hndr
      (updateFn v s (npChoiceBern pZero (u k))) (k + 1)
    constructor
    · rw [hstep, ihc, List.length_cons]
      omega
    · intro t
      rw [hstep, ihv t]
      by_cases ht : t ∈ rest
      · have hts : s ≠ t := fun he => hns (he ▸ ht)
        rw [if_pos ht, if_pos (List.mem_cons_of_mem _ ht), posOf_cons,
          if_neg hts]
        have harg : k + (posOf t rest + 1) = k + 1 + posOf t rest := by omega
        rw [harg]
      · rw [if_neg ht]
        by_cases hts : t = s
        · subst hts
          rw [if_pos (List.mem_cons_self _ _), updateFn, if_pos rfl,
            posOf_cons, if_pos rfl]
          rfl
        · have hnmem : t ∉ s :: rest := by
            intro hc
            rcases List.mem_cons.mp hc with he | he
            · exact hts he
            · exact ht he
          rw [if_neg hnmem, updateFn, if_neg hts]

theorem noiseFold_spec (tall : List String) (u : ℕ → ℚ) : ∀ (L : List String),
    L.Nodup → ∀ (v : String → ℕ) (k : ℕ),
    (L.foldl (noiseStep tall u) (v, k)).2 =
      k + (L.filter (fun s => decide (s ∉ tall))).length ∧
    ∀ t, (L.foldl (noiseStep tall u) (v, k)).1 t =
      if t ∈ L ∧ t ∉ tall then
        npChoiceBern (95/100)
          (u (k + posOf t (L.filter (fun s => decide (s ∉ tall)))))
      else v t
  | [], _, v, k => by
    refine ⟨rfl, fun t => ?_⟩
    rw [if_neg (fun hc => List.not_mem_nil t hc.1)]
    rfl
  | s :: rest, hnd, v, k => by
    obtain ⟨hns, hndr⟩ := List.nodup_cons.mp hnd
    by_cases hs : s ∈ tall
    · have hstep : (s :: rest).foldl (noiseStep tall u) (v, k) =
          rest.foldl (noiseStep tall u) (v, k) := by
        rw [List.foldl_cons]
        rw [show noiseStep tall u (v, k) s = (v, k) from by
          rw [noiseStep, if_pos hs]]
      obtain ⟨ihc, ihv⟩ := noiseFold_spec tall u rest hndr v k
      have hfil : (s :: rest).filter (fun x => decide (x ∉ tall)) =
          rest.filter (fun x => decide (x ∉ tall)) := by
        rw [List.filter_cons, if_neg (by simpa using hs)]
      constructor
      · rw [hstep, ihc, hfil]
      · intro t
        rw [hstep, ihv t, hfil]
        by_cases ht : t ∈ rest ∧ t ∉ tall
        · rw [if_pos ht, if_pos ⟨List.mem_cons_of_mem _ ht.1, ht.2⟩]
        · rw [if_neg ht]
          rw [if_neg (fun hc => ?_)]
          rcases List.mem_cons.mp hc.1 with he | he
          · exact hc.2 (he ▸ hs)
          · exact ht ⟨he, hc.2⟩
    · have hstep : (s :: rest).foldl (noiseStep tall u) (v, k) =
          rest.foldl (noiseStep tall u)
            (updateFn v s (npChoiceBern (95/100) (u k)), k + 1) := by
        rw [List.foldl_cons]
        rw [show noiseStep tall u (v, k) s =
          (updateFn v s (npChoiceBern (95/100) (u k)), k + 1) from by
            rw [noiseStep, if_neg hs]]
      obtain ⟨ihc, ihv⟩ := noiseFold_spec tall u rest hndr
        (updateFn v s (npChoiceBern (95/100) (u k))) (k + 1)
      have hfil : (s :: rest).filter (fun x => decide (x ∉ tall)) =
          s :: rest.filter (fun x => decide (x ∉ tall)) := by
        rw [List.filter_cons, if_pos (by simpa using hs)]
      constructor
      · rw [hstep, ihc, hfil, List.length_cons]
        omega
      · intro t
        rw [hstep, ihv t, hfil]
        by_cases ht : t ∈ rest ∧ t ∉ tall
        · have hts : s ≠ t := fun he => hns (he ▸ ht.1)
          rw [if_pos ht, if_pos ⟨List.mem_cons_of_mem _ ht.1, ht.2⟩,
            posOf_cons, if_neg hts]
          have harg : k + (posOf t (rest.filter (fun x => decide (x ∉ tall))) + 1) =
              k + 1 + posOf t (rest.filter (fun x => decide (x ∉ tall))) := by
            omega
          rw [harg]
        · rw [if_neg ht]
          by_cases hts : t = s
          · subst hts
            rw [if_pos ⟨List.mem_cons_self _ _, hs⟩, updateFn, if_pos rfl,
              posOf_cons, if_pos rfl]
            rfl
          · rw [if_neg (fun hc => ?_), updateFn, if_neg hts]
            rcases List.mem_cons.mp hc.1 with he | he
            · exact hts he
            · exact ht ⟨he, hc.2⟩

theorem noiseLoop_spec (tall : List String) (u : ℕ → ℚ) (v : String → ℕ)
    (k : ℕ) :
    (noiseLoop tall u (v, k)).2 =
      k + (symptomsVocab.filter (fun s => decide (s ∉ tall))).length ∧
    ∀ t, (noiseLoop tall u (v, k)).1 t =
      if t ∈ symptomsVocab ∧ t ∉ tall then
        npChoiceBern (95/100)
          (u (k + posOf t (symptomsVocab.filter (fun s => decide (s ∉ tall)))))
      else v t :=
  noiseFold_spec tall u symptomsVocab vocabNodup v k

theorem genRowChain_spec (pt : Pattern) (u : ℕ → ℚ) (k : ℕ)
    (hp : PatGood pt) :
    (genRowChain pt u k).2 = k + 1 + rowDraws pt ∧
    ∀ s ∈ symptomsVocab, (genRowChain pt u k).1 s =
      npChoiceBern (tierPZero pt s) (u (k + 1 + tierDrawPos pt s)) := by
  obtain ⟨hndH, hndM, hndL, hsubH, hsubM, hsubL, hdHM, hdML⟩ := hp
  obtain ⟨cH, vH⟩ :=
    tierLoop_spec (2/10) u pt.high_symptoms hsubH hndH (fun _ => 0) (k + 1)
  obtain ⟨cM, vM⟩ := tierLoop_spec (5/10) u pt.medium_symptoms hsubM hndM
    (tierLoop (2/10) u pt.high_symptoms (fun _ => 0, k + 1)).1
    (tierLoop (2/10) u pt.high_symptoms (fun _ => 0, k + 1)).2
  rw [Prod.mk.eta] at cM vM
  obtain ⟨cL, vL⟩ := tierLoop_spec (8/10) u pt.low_symptoms hsubL hndL
    (tierLoop (5/10) u pt.medium_symptoms
      (tierLoop (2/10) u pt.high_symptoms (fun _ => 0, k + 1))).1
    (tierLoop (5/10) u pt.medium_symptoms
      (tierLoop (2/10) u pt.high_symptoms (fun _ => 0, k + 1))).2
  rw [Prod.mk.eta] at cL vL
  obtain ⟨cN, vN⟩ := noiseLoop_spec (Tall pt) u
    (tierLoop (8/10) u pt.low_symptoms
      (tierLoop (5/10) u pt.medium_symptoms
        (tierLoop (2/10) u pt.high_symptoms (fun _ => 0, k + 1)))).1
    (tierLoop (8/10) u pt.low_symptoms
      (tierLoop (5/10) u pt.medium_symptoms
        (tierLoop (2/10) u pt.high_symptoms (fun _ => 0, k + 1)))).2
  rw [Prod.mk.eta] at cN vN
  constructor
  · rw [show (genRowChain pt u k).2 =
      (noiseLoop (Tall pt) u
        (tierLoop (8/10) u pt.low_symptoms
          (tierLoop (5/10) u pt.medium_symptoms
            (tierLoop (2/10) u pt.high_symptoms (fun _ => 0, k + 1))))).2
      from rfl, cN, cL, cM, cH, rowDraws, notTallVocab]
    omega
  · intro s hs
    rw [show (genRowChain pt u k).1 s =
      (noiseLoop (Tall pt) u
        (tierLoop (8/10) u pt.low_symptoms
          (tierLoop (5/10) u pt.medium_symptoms
            (tierLoop (2/10) u pt.high_symptoms (fun _ => 0, k + 1))))).1 s
      from rfl, vN s]
    by_cases hH : s ∈ pt.high_symptoms
    · have hTall : s ∈ Tall pt := by
        rw [Tall]
        exact List.mem_append.mpr (Or.inl (List.mem_append.mpr (Or.inl hH)))
      rw [if_neg (fun hc => hc.2 hTall), vL s,
        if_neg (hdHM s hH).2, vM s, if_neg (hdHM s hH).1, vH s, if_pos hH,
        tierPZero, if_pos hH, tierDrawPos, if_pos hH]
    · by_cases hM : s ∈ pt.medium_symptoms
      · have hTall : s ∈ Tall pt := by
          rw [Tall]
          exact List.mem_append.mpr (Or.inl (List.mem_append.mpr (Or.inr hM)))
        rw [if_neg (fun hc => hc.2 hTall), vL s, if_neg (hdML s hM),
          vM s, if_pos hM, cH,
          tierPZero, if_neg hH, if_pos hM, tierDrawPos, if_neg hH, if_pos hM]
        have harg : k + 1 + pt.high_symptoms.length +
            posOf s pt.medium_symptoms =
            k + 1 + (pt.high_symptoms.length + posOf s pt.medium_symptoms) := by
          omega
        rw [harg]
      · by_cases hL : s ∈ pt.low_symptoms
        · have hTall : s ∈ Tall pt := by
            rw [Tall]
            exact List.mem_append.mpr (Or.inr hL)
          rw [if_neg (fun hc => hc.2 hTall), vL s, if_pos hL, cM, cH,
            tierPZero, if_neg hH, if_neg hM, if_pos hL,
            tierDrawPos, if_neg hH, if_neg hM, if_pos hL]
          have harg : k + 1 + pt.high_symptoms.length +
              pt.medium_symptoms.length + posOf s pt.low_symptoms =
              k + 1 + (pt.high_symptoms.length + pt.medium_symptoms.length +
                posOf s pt.low_symptoms) := by
            omega
          rw [harg]
        · have hN : s ∉ Tall pt := by
            intro hc
            rw [Tall] at hc
            rcases List.mem_append.mp hc with h1 | h2
            · rcases List.mem_append.mp h1 with h3 | h4
              · exact hH h3
              · exact hM h4
            · exact hL h2
          rw [if_pos ⟨hs, hN⟩, cL, cM, cH,
            tierPZero, if_neg hH, if_neg hM, if_neg hL,
            tierDrawPos, if_neg hH, if_neg hM, if_neg hL, notTallVocab]
          have harg : k + 1 + pt.high_symptoms.length +
              pt.medium_symptoms.length + pt.low_symptoms.length +
              posOf s (symptomsVocab.filter (fun x => decide (x ∉ Tall pt))) =
              k + 1 + (pt.high_symptoms.length + pt.medium_symptoms.length +
                pt.low_symptoms.length +
                posOf s (symptomsVocab.filter (fun x => decide (x ∉ Tall pt)))) := by
            omega
          rw [harg]

theorem genRow_disease (cfg : List (String × Pattern)) (u : ℕ → ℚ) (k : ℕ) :
    (genRow cfg u k).1.disease = npChoiceList (cfg.map Prod.fst) (u k) := rfl

theorem genRow_spec (cfg : List (String × Pattern)) (u : ℕ → ℚ) (k : ℕ)
    (hp : PatGood (lookupPattern cfg (npChoiceList (cfg.map Prod.fst) (u k)))) :
    (genRow cfg u k).1.disease = npChoiceList (cfg.map Prod.fst) (u k) ∧
    (genRow cfg u k).2 = k + 1 +
      rowDraws (lookupPattern cfg (npChoiceList (cfg.map Prod.fst) (u k))) ∧
    ∀ s ∈ symptomsVocab, (genRow cfg u k).1.value s =
      npChoiceBern
        (tierPZero (lookupPattern cfg (npChoiceList (cfg.map Prod.fst) (u k))) s)
        (u (k + 1 +
          tierDrawPos
            (lookupPattern cfg (npChoiceList (cfg.map Prod.fst) (u k))) s)) := by
  obtain ⟨hc, hv⟩ := genRowChain_spec
    (lookupPattern cfg (npChoiceList (cfg.map Prod.fst) (u k))) u k hp
  exact ⟨rfl, hc, hv⟩

theorem genRows_succ (cfg : List (String × Pattern)) (u : ℕ → ℚ) (k n : ℕ) :
    genRows cfg u k (n + 1) =
      (genRow cfg u k).1 :: genRows cfg u (genRow cfg u k).2 n := rfl

theorem genRows_length (cfg : List (String × Pattern)) (u : ℕ → ℚ) :
    ∀ (n k : ℕ), (genRows cfg u k n).length = n
  | 0, _ => rfl
  | n + 1, k => by
    rw [genRows_succ, List.length_cons, genRows_length cfg u n]

theorem npChoiceList_mem (items : List String) (v : ℚ)
    (hlen : 0 < items.length) (h0 : 0 ≤ v) (h1 : v < 1) :
    npChoiceList items v ∈ items := by
  apply getD_mem_of_lt
  have hfl : ⌊v * (items.length : ℚ)⌋ < (items.length : ℤ) := by
    apply Int.floor_lt.mpr
    push_cast
    calc v * (items.length : ℚ) < 1 * (items.length : ℚ) := by
          apply mul_lt_mul_of_pos_right h1
          exact_mod_cast hlen
      _ = (items.length : ℚ) := one_mul _
  have hnn : (0 : ℤ) ≤ ⌊v * (items.length : ℚ)⌋ := by
    apply Int.floor_nonneg.mpr
    have : (0 : ℚ) ≤ (items.length : ℚ) := by positivity
    exact mul_nonneg h0 this
  omega

theorem genRows_disease_mem (cfg : List (String × Pattern)) (u : ℕ → ℚ)
    (hk : 0 < cfg.length) (hu : ∀ n, 0 ≤ u n ∧ u n < 1) :
    ∀ (n k : ℕ), ∀ r ∈ genRows cfg u k n, r.disease ∈ cfg.map Prod.fst
  | 0, _, r, hr => absurd hr (List.not_mem_nil r)
  | n + 1, k, r, hr => by
    rw [genRows_succ] at hr
    rcases List.mem_cons.mp hr with rfl | hr
    · rw [genRow_disease]
      exact npChoiceList_mem _ _ (by simpa using hk) (hu k).1 (hu k).2
    · exact genRows_disease_mem cfg u hk hu n _ r hr

theorem genRows_getD (cfg : List (String × Pattern)) (u : ℕ → ℚ)
    (hadv : ∀ k, (genRow cfg u k).2 = k + 37) :
    ∀ (n k i : ℕ), i < n →
      (genRows cfg u k n).getD i ⟨"", fun _ => 0⟩ =
        (genRow cfg u (k + 37 * i)).1
  | 0, _, i, hi => absurd hi (Nat.not_lt_zero i)
  | n + 1, k, 0, _ => by
    rw [genRows_succ, List.getD_cons_zero, Nat.mul_zero, Nat.add_zero]
  | n + 1, k, i + 1, hi => by
    rw [genRows_succ, List.getD_cons_succ, hadv k,
      genRows_getD cfg u hadv n (k + 37) i (Nat.lt_of_succ_lt_succ hi)]
    have harg : k + 37 + 37 * i = k + 37 * (i + 1) := by omega
    rw [harg]

theorem lookupPattern_eq (cfg : List (String × Pattern)) (d : String)
    (hd : d ∈ cfg.map Prod.fst) :
    ∃ pr ∈ cfg, pr.1 = d ∧ lookupPattern cfg d = pr.2 := by
  induction cfg with
  | nil => simp at hd
  | cons pr0 rest ih =>
    by_cases h : pr0.1 = d
    · refine ⟨pr0, List.mem_cons_self _ _, h, ?_⟩
      rw [lookupPattern, List.find?_cons_of_pos _ (by simpa using h)]
    · have hd2 : d ∈ rest.map Prod.fst := by
        rcases List.mem_map.mp hd with ⟨pr, hpr, he⟩
        rcases List.mem_cons.mp hpr with rfl | hpr
        · exact absurd he h
        · exact List.mem_map.mpr ⟨pr, hpr, he⟩
      obtain ⟨pr, hpr, he, hl⟩ := ih hd2
      refine ⟨pr, List.mem_cons_of_mem _ hpr, he, ?_⟩
      rw [lookupPattern, List.find?_cons_of_neg _ (by simpa using h)]
      rw [lookupPattern] at hl
      exact hl

/-- Every entry of the hard-coded `disease_patterns` table is well-formed
(duplicate-free disjoint tiers inside the vocabulary) and consumes exactly
36 symptom draws per row — one per vocabulary symptom. -/
theorem configOK : ∀ pr ∈ diseasePatterns, PatGood pr.2 ∧ rowDraws pr.2 = 36 := by
  decide

/-- One row of the default-table generator always consumes exactly 37
draws: one disease draw plus one per vocabulary symptom. -/
theorem default_advance (u : ℕ → ℚ) (hu : ∀ n, 0 ≤ u n ∧ u n < 1) :
    ∀ k, (genRow diseasePatterns u k).2 = k + 37 := by
  intro k
  have hd : npChoiceList (diseasePatterns.map Prod.fst) (u k) ∈
      diseasePatterns.map Prod.fst :=
    npChoiceList_mem _ _ (by decide) (hu k).1 (hu k).2
  obtain ⟨pr, hpr, hfst, hlk⟩ := lookupPattern_eq _ _ hd
  have h2 := configOK pr hpr
  have hp : PatGood (lookupPattern diseasePatterns
      (npChoiceList (diseasePatterns.map Prod.fst) (u k))) := by
    rw [hlk]; exact h2.1
  rw [(genRow_spec diseasePatterns u k hp).2.1, hlk, h2.2]

/-! ## C6: structure of the generated corpus -/

/-- C6: for any stream of uniform draws in `[0,1)`, the generated corpus
has exactly 2500 rows; row `i` draws its disease uniformly from the
configured table keys (index `⌊v·15⌋` of draw `v`, consuming draw `37·i`),
and, starting from the all-false vector, assigns every vocabulary symptom
`s` a fresh Bernoulli draw whose success (value `1`) happens exactly when
the draw is at least `tierPZero`, i.e. with probability `0.8` for the
disease's high tier, `0.5` medium, `0.2` low and `0.05` for every
remaining vocabulary symptom in no tier of that disease; each symptom
consumes its own distinct stream position `37·i + 1 + tierDrawPos`. -/
theorem training_data_spec (u : ℕ → ℚ) (hu : ∀ n, 0 ≤ u n ∧ u n < 1) :
    (createTrainingData u).length = 2500 ∧
    ∀ i, i < 2500 →
      ((createTrainingData u).getD i ⟨"", fun _ => 0⟩).disease =
        npChoiceList (diseasePatterns.map Prod.fst) (u (37 * i)) ∧
      ((createTrainingData u).getD i ⟨"", fun _ => 0⟩).disease ∈
        diseasePatterns.map Prod.fst ∧
      ∀ s ∈ symptomsVocab,
        ((createTrainingData u).getD i ⟨"", fun _ => 0⟩).value s =
          npChoiceBern
            (tierPZero
              (lookupPattern diseasePatterns
                (((createTrainingData u).getD i ⟨"", fun _ => 0⟩).disease)) s)
            (u (37 * i + 1 +
              tierDrawPos
                (lookupPattern diseasePatterns
                  (((createTrainingData u).getD i ⟨"", fun _ => 0⟩).disease)) s)) := by
  have hdata : createTrainingData u = genRows diseasePatterns u 0 2500 := rfl
  constructor
  · rw [hdata]
    exact genRows_length diseasePatterns u 2500 0
  · intro i hi
    have hrow : (createTrainingData u).getD i ⟨"", fun _ => 0⟩ =
        (genRow diseasePatterns u (37 * i)).1 := by
      rw [hdata, genRows_getD diseasePatterns u (default_advance u hu) 2500 0 i hi,
        Nat.zero_add]
    have hd : npChoiceList (diseasePatterns.map Prod.fst) (u (37 * i)) ∈
        diseasePatterns.map Prod.fst :=
      npChoiceList_mem _ _ (by decide) (hu (37 * i)).1 (hu (37 * i)).2
    obtain ⟨pr, hpr, hfst, hlk⟩ := lookupPattern_eq _ _ hd
    have hp : PatGood (lookupPattern diseasePatterns
        (npChoiceList (diseasePatterns.map Prod.fst) (u (37 * i)))) := by
      rw [hlk]; exact (configOK pr hpr).1
    obtain ⟨hdis, _, hval⟩ := genRow_spec diseasePatterns u (37 * i) hp
    refine ⟨?_, ?_, ?_⟩
    · rw [hrow, hdis]
    · rw [hrow, hdis]
      exact hd
    · intro s hs
      rw [hrow, hdis]
      exact hval s hs

/-- Witness for C6 at the all-zero draw stream. -/
theorem training_data_spec_witness :
    (∀ n : ℕ, 0 ≤ (fun _ : ℕ => (0 : ℚ)) n ∧ (fun _ : ℕ => (0 : ℚ)) n < 1) ∧
    (createTrainingData (fun _ => 0)).length = 2500 :=
  ⟨fun _ => ⟨le_refl 0, by norm_num⟩,
    (training_data_spec (fun _ => 0) (fun _ => ⟨le_refl 0, by norm_num⟩)).1⟩

/-! ## Lemmas about `firstSeen` and `npUnique` -/

theorem firstSeenFold_mem : ∀ (l acc : List String) (x : String),
    x ∈ l.foldl (fun acc x => if x ∈ acc then acc else acc ++ [x]) acc ↔
      x ∈ acc ∨ x ∈ l
  | [], acc, x => by simp
  | y :: ys, acc, x => by
    rw [List.foldl_cons]
    by_cases h : y ∈ acc
    · rw [if_pos h, firstSeenFold_mem ys acc x]
      constructor
      · rintro (hx | hx)
        · exact Or.inl hx
        · exact Or.inr (List.mem_cons_of_mem _ hx)
      · rintro (hx | hx)
        · exact Or.inl hx
        · rcases List.mem_cons.mp hx with rfl | hx
          · exact Or.inl h
          · exact Or.inr hx
    · rw [if_neg h, firstSeenFold_mem ys (acc ++ [y]) x]
      simp [List.mem_append, List.mem_cons, or_assoc]

theorem firstSeenFold_nodup : ∀ (l acc : List String), acc.Nodup →
    (l.foldl (fun acc x => if x ∈ acc then acc else acc ++ [x]) acc).Nodup
  | [], _, h => h
  | y :: ys, acc, h => by
    rw [List.foldl_cons]
    by_cases hy : y ∈ acc
    · rw [if_pos hy]
      exact firstSeenFold_nodup ys acc h
    · rw [if_neg hy]
      refine firstSeenFold_nodup ys _ ?_
      rw [List.nodup_append]
      refine ⟨h, List.nodup_singleton y, ?_⟩
      intro a ha hay
      rw [List.mem_singleton] at hay
      exact hy (hay ▸ ha)

theorem firstSeenFold_absorb : ∀ (l acc : List String),
    (∀ x ∈ l, x ∈ acc) →
    l.foldl (fun acc x => if x ∈ acc then acc else acc ++ [x]) acc = acc
  | [], _, _ => rfl
  | y :: ys, acc, h => by
    rw [List.foldl_cons, if_pos (h y (List.mem_cons_self _ _))]
    exact firstSeenFold_absorb ys acc (fun x hx => h x (List.mem_cons_of_mem _ hx))

theorem mem_firstSeen (l : List String) (x : String) :
    x ∈ firstSeen l ↔ x ∈ l := by
  rw [firstSeen, firstSeenFold_mem]
  simp

theorem nodup_firstSeen (l : List String) : (firstSeen l).Nodup :=
  firstSeenFold_nodup l [] List.nodup_nil

theorem mem_npUnique (l : List String) (x : String) :
    x ∈ npUnique l ↔ x ∈ l := by
  rw [npUnique]
  exact ((List.perm_insertionSort _ _).mem_iff).trans (mem_firstSeen l x)

theorem nodup_npUnique (l : List String) : (npUnique l).Nodup :=
  ((List.perm_insertionSort _ _).nodup_iff).mpr (nodup_firstSeen l)

theorem sorted_npUnique (l : List String) : (npUnique l).Sorted (· ≤ ·) :=
  List.sorted_insertionSort _ _

/-! ## C7: the label encoding order -/

/-- A two-disease table whose first generated label is not the
lexicographically least one. -/
def pat2 : Pattern := ⟨["fever"], ["cough"], []⟩

/-- Two diseases, listed with `"Influenza"` first. -/
def cfg2 : List (String × Pattern) := [("Influenza", pat2), ("Common Cold", pat2)]

/-- A draw stream whose row-1 disease draw selects the second table entry
and all other draws select the first. -/
def uAB : ℕ → ℚ := fun n => if n = 37 then 1/2 else 0

theorem uAB_bounds : ∀ n, 0 ≤ uAB n ∧ uAB n < 1 := by
  intro n
  rw [uAB]
  by_cases h : n = 37
  · rw [if_pos h]
    norm_num
  · rw [if_neg h]
    norm_num

theorem cfg2OK : ∀ pr ∈ cfg2, PatGood pr.2 ∧ rowDraws pr.2 = 36 := by decide

/-- Row advance for any table whose patterns each consume 36 symptom
draws. -/
theorem genRow_advance (cfg : List (String × Pattern)) (u : ℕ → ℚ)
    (hu : ∀ n, 0 ≤ u n ∧ u n < 1) (hlen : 0 < cfg.length)
    (hall : ∀ pr ∈ cfg, PatGood pr.2 ∧ rowDraws pr.2 = 36) :
    ∀ k, (genRow cfg u k).2 = k + 37 := by
  intro k
  have hd : npChoiceList (cfg.map Prod.fst) (u k) ∈ cfg.map Prod.fst :=
    npChoiceList_mem _ _ (by simpa using hlen) (hu k).1 (hu k).2
  obtain ⟨pr, hpr, hfst, hlk⟩ := lookupPattern_eq _ _ hd
  have h2 := hall pr hpr
  have hp : PatGood (lookupPattern cfg (npChoiceList (cfg.map Prod.fst) (u k))) := by
    rw [hlk]; exact h2.1
  rw [(genRow_spec cfg u k hp).2.1, hlk, h2.2]

theorem cfg2_advance : ∀ k, (genRow cfg2 uAB k).2 = k + 37 :=
  genRow_advance cfg2 uAB uAB_bounds (by decide) cfg2OK

theorem npChoiceList_cons_zero (a : String) (l : List String) :
    npChoiceList (a :: l) 0 = a := by
  rw [npChoiceList, zero_mul, Int.floor_zero]
  rfl

theorem npChoiceList_two_half (a b : String) :
    npChoiceList [a, b] (1/2) = b := by
  rw [npChoiceList,
    show (([a, b].length : ℕ) : ℚ) = 2 from by norm_num,
    show (1 : ℚ)/2 * 2 = 1 from by norm_num, Int.floor_one]
  rfl

theorem initModelGen_leClasses (cfg : List (String × Pattern)) (u : ℕ → ℚ)
    (fit : List (List ℕ) → List ℕ → RFModel) :
    (initModelGen cfg u fit).leClasses =
      npUnique ((createTrainingDataGen cfg u).map Row.disease) := by
  simp only [initModelGen]

theorem initModelGen_diseases (cfg : List (String × Pattern)) (u : ℕ → ℚ)
    (fit : List (List ℕ) → List ℕ → RFModel) :
    (initModelGen cfg u fit).diseases =
      firstSeen ((createTrainingDataGen cfg u).map Row.disease) := by
  simp only [initModelGen]

/-- The distinct labels of the `cfg2` corpus in first-seen order. -/
theorem cfg2_firstSeen :
    firstSeen ((createTrainingDataGen cfg2 uAB).map Row.disease) =
      ["Influenza", "Common Cold"] := by
  have r0 : (genRow cfg2 uAB 0).1.disease = "Influenza" := by
    rw [genRow_disease, show uAB 0 = 0 from by rw [uAB]; simp,
      show cfg2.map Prod.fst = ["Influenza", "Common Cold"] from rfl]
    exact npChoiceList_cons_zero _ _
  have r1 : (genRow cfg2 uAB 37).1.disease = "Common Cold" := by
    rw [genRow_disease, show uAB 37 = 1/2 from by rw [uAB]; simp,
      show cfg2.map Prod.fst = ["Influenza", "Common Cold"] from rfl]
    exact npChoiceList_two_half _ _
  have h1 : genRows cfg2 uAB 0 2500 =
      (genRow cfg2 uAB 0).1 :: genRows cfg2 uAB 37 2499 := by
    rw [show (2500 : ℕ) = 2499 + 1 from rfl, genRows_succ, cfg2_advance 0]
  have h2 : genRows cfg2 uAB 37 2499 =
      (genRow cfg2 uAB 37).1 :: genRows cfg2 uAB 74 2498 := by
    rw [show (2499 : ℕ) = 2498 + 1 from rfl, genRows_succ, cfg2_advance 37]
  have hrest : ∀ x ∈ (genRows cfg2 uAB 74 2498).map Row.disease,
      x ∈ (([] : List String) ++ ["Influenza"]) ++ ["Common Cold"] := by
    intro x hx
    rcases List.mem_map.mp hx with ⟨r, hr, rfl⟩
    have h := genRows_disease_mem cfg2 uAB (by decide) uAB_bounds 2498 74 r hr
    rw [show cfg2.map Prod.fst = ["Influenza", "Common Cold"] from rfl] at h
    exact h
  rw [show createTrainingDataGen cfg2 uAB = genRows cfg2 uAB 0 2500 from rfl,
    h1, h2, List.map_cons, List.map_cons, r0, r1, firstSeen]
  simp only [List.foldl_cons]
  rw [if_neg (List.not_mem_nil "Influenza"),
    if_neg (by decide : ¬ "Common Cold" ∈ ([] : List String) ++ ["Influenza"]),
    firstSeenFold_absorb _ _ hrest]
  rfl

/-- The `LabelEncoder` classes of the `cfg2` corpus: sorted, not
first-seen. -/
theorem cfg2_npUnique :
    npUnique ((createTrainingDataGen cfg2 uAB).map Row.disease) =
      ["Common Cold", "Influenza"] := by
  rw [npUnique, cfg2_firstSeen]
  have hlt : "Common Cold" < "Influenza" := by
    rw [String.lt_iff_toList_lt]
    decide
  have hnle : ¬ ("Influenza" ≤ "Common Cold") := not_le.mpr hlt
  simp [List.insertionSort, List.orderedInsert, hnle]

/-- C7 counterexample: on a corpus whose first observed label is
`"Influenza"` and whose second is `"Common Cold"`, the encoding the model
trains and predicts with (`label_encoder`, sorted distinct labels) is
`["Common Cold", "Influenza"]`, while the first-seen distinct labels (the
`diseases` attribute, which the claim says the encoding follows) are
`["Influenza", "Common Cold"]` — the encoding is not in first-seen
order. -/
theorem label_encoding_order_counterexample :
    (initModelGen cfg2 uAB fitStub).leClasses = ["Common Cold", "Influenza"] ∧
    (initModelGen cfg2 uAB fitStub).diseases = ["Influenza", "Common Cold"] ∧
    (initModelGen cfg2 uAB fitStub).leClasses ≠
      (initModelGen cfg2 uAB fitStub).diseases := by
  refine ⟨?_, ?_, ?_⟩
  · rw [initModelGen_leClasses, cfg2_npUnique]
  · rw [initModelGen_diseases, cfg2_firstSeen]
  · rw [initModelGen_leClasses, cfg2_npUnique, initModelGen_diseases,
      cfg2_firstSeen]
    decide

/-- C7 (amended): the label-to-class-index encoding built at training time
(`LabelEncoder.fit_transform`, i.e. `np.unique`) consists of the distinct
labels observed in the corpus in lexicographically SORTED order — not
first-seen order; first-seen order is what the separate (unused)
`diseases` attribute stores.  The encoding is a deterministic function of
the corpus, and the trained state is immutable after `init_model`, so it
stays stable for the life of the model; `predict_disease` maps class
indices through exactly this sorted list (`inverse_transform`). -/
theorem label_encoding_sorted_spec (cfg : List (String × Pattern))
    (u : ℕ → ℚ) (fit : List (List ℕ) → List ℕ → RFModel) :
    (initModelGen cfg u fit).leClasses =
      npUnique ((createTrainingDataGen cfg u).map Row.disease) ∧
    (initModelGen cfg u fit).leClasses.Sorted (· ≤ ·) ∧
    (initModelGen cfg u fit).leClasses.Nodup ∧
    (∀ x, x ∈ (initModelGen cfg u fit).leClasses ↔
      x ∈ (createTrainingDataGen cfg u).map Row.disease) ∧
    (initModelGen cfg u fit).diseases =
      firstSeen ((createTrainingDataGen cfg u).map Row.disease) := by
  refine ⟨initModelGen_leClasses cfg u fit, ?_, ?_, ?_,
    initModelGen_diseases cfg u fit⟩
  · rw [initModelGen_leClasses]
    exact sorted_npUnique _
  · rw [initModelGen_leClasses]
    exact nodup_npUnique _
  · intro x
    rw [initModelGen_leClasses]
    exact mem_npUnique _ x

/-! ## C4: absence of configuration validation -/

/-- A single-disease table: every generated row carries the same label, so
the corpus is single-class. -/
def cfgSingle : List (String × Pattern) := [("OnlyDisease", ⟨["fever"], [], []⟩)]

/-- A table whose only disease has overlapping tiers (`fever` is both high
and medium, `cough` both high and low). -/
def cfgOverlap : List (String × Pattern) :=
  [("OverlapDisease", ⟨["fever", "cough"], ["fever"], ["cough"]⟩)]

/-- The all-zero draw stream. -/
def u0 : ℕ → ℚ := fun _ => 0

theorem u0_bounds : ∀ n, 0 ≤ u0 n ∧ u0 n < 1 := by
  intro n
  constructor <;> norm_num [u0]

theorem initModelGen_model_isSome (cfg : List (String × Pattern)) (u : ℕ → ℚ)
    (fit : List (List ℕ) → List ℕ → RFModel) :
    (initModelGen cfg u fit).model.isSome = true := rfl

/-- C4 counterexample: with a single-disease table every one of the 2500
generated labels is `"OnlyDisease"` — a single-class corpus — yet
`init_model` performs no configuration check and still produces a trained
model (`model` is set from `fit`); it does not fail fast before fitting. -/
theorem init_no_validation_counterexample :
    (createTrainingDataGen cfgSingle u0).map Row.disease =
      List.replicate 2500 "OnlyDisease" ∧
    (initModelGen cfgSingle u0 fitStub).model.isSome = true := by
  constructor
  · rw [List.eq_replicate_iff]
    constructor
    · rw [List.length_map]
      exact genRows_length cfgSingle u0 2500 0
    · intro b hb
      rcases List.mem_map.mp hb with ⟨r, hr, rfl⟩
      have h := genRows_disease_mem cfgSingle u0 (by decide) u0_bounds 2500 0 r hr
      rw [show cfgSingle.map Prod.fst = ["OnlyDisease"] from rfl] at h
      exact List.mem_singleton.mp h
  · exact initModelGen_model_isSome cfgSingle u0 fitStub

/-- C4 (amended): `init_model` performs no configuration validation at
all: for every nonempty pattern table — single-class and tier-overlapping
ones included — it proceeds directly to fit and returns a state holding a
trained model that serves predictions.  (An empty disease table fails only
inside corpus generation, at `np.random.choice` of an empty sequence, not
through any configuration check run before training.) -/
theorem init_trains_unconditionally (cfg : List (String × Pattern))
    (u : ℕ → ℚ) (fit : List (List ℕ) → List ℕ → RFModel)
    (_hne : 0 < cfg.length) :
    (initModelGen cfg u fit).model.isSome = true ∧
    ∀ q, (predictDisease (initModelGen cfg u fit) q).isOk = true := by
  refine ⟨initModelGen_model_isSome cfg u fit, fun q => ?_⟩
  obtain ⟨m, hm⟩ :=
    Option.isSome_iff_exists.mp (initModelGen_model_isSome cfg u fit)
  rw [predictDisease_some _ m q hm]
  rfl

/-- Witness for C4 at the tier-overlapping configuration. -/
theorem init_trains_unconditionally_witness :
    0 < cfgOverlap.length ∧
    (initModelGen cfgOverlap u0 fitStub).model.isSome = true ∧
    (predictDisease (initModelGen cfgOverlap u0 fitStub) []).isOk = true := by
  refine ⟨by decide, ?_, ?_⟩
  · exact (init_trains_unconditionally cfgOverlap u0 fitStub (by decide)).1
  · exact (init_trains_unconditionally cfgOverlap u0 fitStub (by decide)).2 []

end HealthSense

